import Mathlib

/-!
Verification development for the TJ-Capital crypto-index pipeline
(`crypto_class.py`).

The pipeline is embedded shallowly:

* Dataframes become lists of structures; a column holding IEEE floats that
  can be NaN/inf (the `weight`, `index`, `price_pct_change` and `metric`
  columns, which are produced by divisions and by NaN-propagating
  arithmetic) is modelled as `Option ℚ`, where `none` stands for a
  non-finite float (NaN or ±inf).  All finite values are modelled exactly
  as rationals.
* Calendar dates travel through the pipeline as `YYYY-MM-DD` strings, as
  in the source (`convert_timestamp` produces strings; the later
  `pd.to_datetime` conversions are injective on such strings, so joining
  and grouping on string equality coincides with the source's joining and
  grouping on parsed datetimes, and lexicographic string order coincides
  with chronological order for four-digit years).
* `datetime.datetime.utcfromtimestamp` raises for datetimes outside the
  years 1..9999, so `convert_timestamp` returns `Option String`, `none`
  modelling the raised exception; fallibility is propagated through
  `data_transform`.
-/

/-- Two-digit zero padding, as C `strftime` does for the `m` and `d`
fields of the format string used by `convert_timestamp`. -/
def pad2 (n : Nat) : String :=
  if n < 10 then "0" ++ toString n else toString n

/-- Days elapsed since the Unix epoch for a count of epoch milliseconds:
`utcfromtimestamp (t / 1000)` lands on calendar day `⌊t / 86400000⌋`
(floor division; the float rounding in the source's `timestamp / 1000`
cannot move an integer-millisecond input across a day boundary within the
representable datetime range). -/
def msToDay (t : Int) : Int :=
  t.fdiv 86400000

/-- Proleptic-Gregorian civil date `(year, month, day)` of a day count
relative to 1970-01-01, the calendar computation performed by
`datetime.datetime.utcfromtimestamp`. -/
def civilFromDays (z : Int) : Int × Nat × Nat :=
  let a := z + 719468
  let era := a.fdiv 146097
  let doe := (a - era * 146097).toNat
  let yoe := (doe - doe / 1460 + doe / 36524 - doe / 146096) / 365
  let y : Int := (yoe : Int) + era * 400
  let doy := doe - (365 * yoe + yoe / 4 - yoe / 100)
  let mp := (5 * doy + 2) / 153
  let d := doy - (153 * mp + 2) / 5 + 1
  let m := if mp < 10 then mp + 3 else mp - 9
  (if m ≤ 2 then y + 1 else y, m, d)

/-- Render a civil date the way `strftime` with a year-month-day format
does on glibc: unpadded year, two-digit zero-padded month and day. -/
def fmtDate (c : Int × Nat × Nat) : String :=
  toString c.1 ++ "-" ++ pad2 c.2.1 ++ "-" ++ pad2 c.2.2

/-- Lower bound (inclusive) of the epoch-millisecond inputs on which
`datetime.datetime.utcfromtimestamp` succeeds: 0001-01-01T00:00:00. -/
def tsMin : Int := -62135596800000

/-- Upper bound (exclusive): 10000-01-01T00:00:00; `datetime` supports
years 1..9999 and raises outside that range. -/
def tsMax : Int := 253402300800000

/-- Embedding of `convert_timestamp`:
`datetime.datetime.utcfromtimestamp(timestamp / 1000).strftime(...)` with
a `YYYY-MM-DD` format.  Returns `none` when the library call raises
(datetime outside years 1..9999). -/
def convert_timestamp (timestamp : Int) : Option String :=
  if tsMin ≤ timestamp ∧ timestamp < tsMax then
    some (fmtDate (civilFromDays (msToDay timestamp)))
  else
    none

/-- Lexicographic comparison of character lists by code point, the order
Python uses to compare the `YYYY-MM-DD` date strings and asset-id strings
of the pipeline (chronological order for the date strings). -/
def charsLt : List Char → List Char → Bool
  | _, [] => false
  | [], _ :: _ => true
  | a :: as, b :: bs => if a = b then charsLt as bs else decide (a.toNat < b.toNat)

/-- Strict lexicographic order on strings (Python `<`). -/
def strLt (a b : String) : Prop :=
  charsLt a.data b.data = true

/-- Lexicographic order on strings (Python `<=`), as the complement of
the reversed strict order. -/
def strLe (a b : String) : Prop :=
  charsLt b.data a.data = false

instance : DecidableRel strLt := fun a b => by
  unfold strLt
  infer_instance

instance : DecidableRel strLe := fun a b => by
  unfold strLe
  infer_instance

theorem charsLt_irrefl : ∀ l : List Char, charsLt l l = false
  | [] => rfl
  | a :: as => by simp [charsLt, charsLt_irrefl as]

theorem charsLt_asymm : ∀ {l₁ l₂ : List Char},
    charsLt l₁ l₂ = true → charsLt l₂ l₁ = false
  | l₁, [], h => by cases l₁ <;> simp [charsLt] at h
  | [], _ :: _, _ => rfl
  | a :: as, b :: bs, h => by
    by_cases hab : a = b
    · subst hab
      simp only [charsLt, if_pos rfl] at h ⊢
      exact charsLt_asymm h
    · simp only [charsLt, if_neg hab, decide_eq_true_eq] at h
      have hba : b ≠ a := fun e => hab e.symm
      simp only [charsLt, if_neg hba, decide_eq_false_iff_not]
      simp only [Char.toNat] at h ⊢
      omega

theorem charsLt_trans : ∀ {l₁ l₂ l₃ : List Char},
    charsLt l₁ l₂ = true → charsLt l₂ l₃ = true → charsLt l₁ l₃ = true
  | _, l₂, [], _, h₂ => by cases l₂ <;> simp [charsLt] at h₂
  | [], _, _ :: _, _, _ => rfl
  | a :: as, l₂, c :: cs, h₁, h₂ => by
    match l₂ with
    | [] => simp [charsLt] at h₁
    | b :: bs =>
      by_cases hab : a = b
      · subst hab
        simp only [charsLt, if_pos rfl] at h₁
        by_cases hac : a = c
        · subst hac
          simp only [charsLt, if_pos rfl] at h₂ ⊢
          exact charsLt_trans h₁ h₂
        · simp only [charsLt, if_neg hac] at h₂ ⊢
          exact h₂
      · simp only [charsLt, if_neg hab, decide_eq_true_eq] at h₁
        by_cases hbc : b = c
        · subst hbc
          simp only [charsLt, if_neg hab, decide_eq_true_eq]
          exact h₁
        · simp only [charsLt, if_neg hbc, decide_eq_true_eq] at h₂
          have hac : a ≠ c := by
            intro e
            subst e
            omega
          simp only [charsLt, if_neg hac, decide_eq_true_eq]
          simp only [Char.toNat] at h₁ h₂ ⊢
          omega

theorem charsLt_connex : ∀ {l₁ l₂ : List Char},
    charsLt l₁ l₂ = false → charsLt l₂ l₁ = false → l₁ = l₂
  | [], [], _, _ => rfl
  | [], _ :: _, h₁, _ => by simp [charsLt] at h₁
  | _ :: _, [], _, h₂ => by simp [charsLt] at h₂
  | a :: as, b :: bs, h₁, h₂ => by
    by_cases hab : a = b
    · subst hab
      simp only [charsLt, if_pos rfl] at h₁ h₂
      exact congrArg (a :: ·) (charsLt_connex h₁ h₂)
    · have hba : b ≠ a := fun e => hab e.symm
      simp only [charsLt, if_neg hab, decide_eq_false_iff_not] at h₁
      simp only [charsLt, if_neg hba, decide_eq_false_iff_not] at h₂
      simp only [Char.toNat] at h₁ h₂
      exact absurd (Char.ext (UInt32.toNat.inj (by omega))) hab

theorem strLt_asymm {a b : String} (h : strLt a b) : ¬ strLt b a := by
  unfold strLt at *
  simp [charsLt_asymm h]

theorem strLt_trans {a b c : String} (h₁ : strLt a b) (h₂ : strLt b c) : strLt a c :=
  charsLt_trans h₁ h₂

theorem strLe_antisymm {a b : String} (h₁ : strLe a b) (h₂ : strLe b a) : a = b := by
  apply String.ext
  exact charsLt_connex h₂ h₁

theorem strLt_or_eq_of_le {a b : String} (h : strLe a b) : strLt a b ∨ a = b := by
  unfold strLe strLt at *
  cases hc : charsLt a.data b.data with
  | true => exact Or.inl rfl
  | false => exact Or.inr (String.ext (charsLt_connex hc h))

theorem strLe_of_lt {a b : String} (h : strLt a b) : strLe a b :=
  charsLt_asymm h

theorem strLe_refl (a : String) : strLe a a :=
  charsLt_irrefl a.data

theorem strLe_total (a b : String) : strLe a b ∨ strLe b a := by
  unfold strLe
  cases hc : charsLt b.data a.data with
  | false => exact Or.inl rfl
  | true => exact Or.inr (charsLt_asymm hc)

theorem strLe_trans {a b c : String} (h₁ : strLe a b) (h₂ : strLe b c) : strLe a c := by
  rcases strLt_or_eq_of_le h₁ with h | h
  · rcases strLt_or_eq_of_le h₂ with h' | h'
    · exact strLe_of_lt (strLt_trans h h')
    · exact h' ▸ strLe_of_lt h
  · exact h ▸ h₂

theorem strLt_of_le_of_lt {a b c : String} (h₁ : strLe a b) (h₂ : strLt b c) : strLt a c := by
  rcases strLt_or_eq_of_le h₁ with h | h
  · exact strLt_trans h h₂
  · exact h ▸ h₂

instance : IsTotal String strLe := ⟨strLe_total⟩

instance : IsTrans String strLe := ⟨fun _ _ _ => strLe_trans⟩

/-- Response of the Asset Series Fetcher for one asset: the
`coin_data['prices']` and `coin_data['market_caps']` arrays of
`[epoch_ms, value]` pairs, together with the asset identifier the loop
in `data_transform` pairs them with. -/
structure AssetFetch where
  id : String
  prices : List (Int × ℚ)
  market_caps : List (Int × ℚ)
  deriving DecidableEq

/-- One row of the long-form table built by the first loop of
`data_transform` (`[date, price_value, market_cap_value, id]`). -/
structure AssetObservation where
  date : String
  price : ℚ
  market_cap : ℚ
  id : String
  deriving DecidableEq

/-- One row of `self.df` after the weight loop of `data_transform`:
an observation extended with the `weight` and `index` columns.  `none`
models the non-finite float that numpy division by a zero total yields. -/
structure IndexRow where
  date : String
  price : ℚ
  market_cap : ℚ
  id : String
  weight : Option ℚ
  index : Option ℚ
  deriving DecidableEq

/-- One row of the benchmark table returned by the Yahoo fetch, with its
timestamp already normalized to a date-only string. -/
structure BenchRow where
  date : String
  openP : ℚ
  highP : ℚ
  lowP : ℚ
  closeP : ℚ
  vol : ℚ
  deriving DecidableEq

/-- One row of `pd.merge(self.df, nasdaq_data, ...)`: all `IndexRow`
fields together with the benchmark fields for the matching date. -/
structure JoinedRow where
  date : String
  price : ℚ
  market_cap : ℚ
  id : String
  weight : Option ℚ
  index : Option ℚ
  openP : ℚ
  highP : ℚ
  lowP : ℚ
  closeP : ℚ
  vol : ℚ
  deriving DecidableEq

/-- One row of `self.merged_df` after `nasdaq_data_transform` adds the
`price_pct_change` and `metric` columns. -/
structure MergedRow extends JoinedRow where
  price_pct_change : Option ℚ
  metric : Option ℚ
  deriving DecidableEq

/-- First loop of `data_transform` restricted to one asset: zip the
`prices` and `market_caps` arrays pairwise by position (Python `zip`
truncates to the shorter array), take the date from the price entry's
timestamp and the value fields from position 1 of each pair. -/
def perAssetRows (a : AssetFetch) : Option (List AssetObservation) :=
  (a.prices.zip a.market_caps).mapM fun pm =>
    (convert_timestamp pm.1.1).map fun d =>
      { date := d, price := pm.1.2, market_cap := pm.2.2, id := a.id }

/-- First loop of `data_transform` over all requested assets, in request
order; `none` if any timestamp makes `convert_timestamp` raise. -/
def buildObs (input : List AssetFetch) : Option (List AssetObservation) :=
  (input.mapM perAssetRows).map List.flatten

/-- Total market cap of the rows sharing a date,
`df[df['date'] == date]['market_cap'].sum()`. -/
def rowTotal (rows : List AssetObservation) (d : String) : ℚ :=
  ((rows.filter fun x => x.date == d).map fun x => x.market_cap).sum

/-- Body of the second loop of `data_transform` for one row: `weight` is
the row's market cap divided by the total market cap of all rows sharing
its date, and `index` is `weight * price`.  A zero total makes the numpy
division non-finite, modelled as `none`. -/
def weighRow (rows : List AssetObservation) (r : AssetObservation) : IndexRow :=
  let total := rowTotal rows r.date
  { date := r.date, price := r.price, market_cap := r.market_cap, id := r.id,
    weight := if total = 0 then none else some (r.market_cap / total),
    index := if total = 0 then none else some (r.market_cap / total * r.price) }

/-- Second loop of `data_transform`, applied to every row of the table
(the loop over `df['date'].unique()` assigns `weight` and `index` to
exactly the rows of each date group, so every row is weighted once). -/
def addWeights (rows : List AssetObservation) : List IndexRow :=
  rows.map (weighRow rows)

/-- Embedding of `Crypto.data_transform`: build the long-form rows from
the fetched per-asset arrays, then compute the per-date weights. -/
def data_transform (input : List AssetFetch) : Option (List IndexRow) :=
  (buildObs input).map addWeights

/-- Modelled from the spec: the Benchmark Series Fetcher is an external
collaborator (the `yf.Ticker("^IXIC").history(start, end)` call inside
`yahoo_download`); per the contract of spec section 4.3 it returns, given
a start date and an end date (both inclusive), one row per trading day in
range, dates normalized to date-only.  `bench` is the fetcher's full
trading history. -/
def yahoo_download (bench : List BenchRow) (start_date end_date : String) : List BenchRow :=
  bench.filter fun b => strLe start_date b.date ∧ strLe b.date end_date

/-- Row of the inner join pairing an index row with a benchmark row of
the same date. -/
def joinRow (r : IndexRow) (b : BenchRow) : JoinedRow :=
  { date := r.date, price := r.price, market_cap := r.market_cap, id := r.id,
    weight := r.weight, index := r.index,
    openP := b.openP, highP := b.highP, lowP := b.lowP, closeP := b.closeP,
    vol := b.vol }

/-- Embedding of `pd.merge(self.df, nasdaq_data, left_on='date',
right_on='Date', how='inner')`: one output row per pair of input rows
with equal dates, ordered by the left table's rows. -/
def mergeRows (df : List IndexRow) (nd : List BenchRow) : List JoinedRow :=
  (df.map fun r => (nd.filter fun b => b.date == r.date).map fun b => joinRow r b).flatten

/-- Sort key of `sort_values(by=['id', 'date'])`: ascending by `id`, ties
broken ascending by `date`. -/
def lexLe (a b : JoinedRow) : Prop :=
  strLt a.id b.id ∨ (a.id = b.id ∧ strLe a.date b.date)

instance : DecidableRel lexLe := fun a b => by
  unfold lexLe
  infer_instance

instance : IsTotal JoinedRow lexLe :=
  ⟨fun a b => by
    unfold lexLe
    rcases strLe_total a.id b.id with h | h
    · rcases strLt_or_eq_of_le h with h' | h'
      · exact Or.inl (Or.inl h')
      · rcases strLe_total a.date b.date with hd | hd
        · exact Or.inl (Or.inr ⟨h', hd⟩)
        · exact Or.inr (Or.inr ⟨h'.symm, hd⟩)
    · rcases strLt_or_eq_of_le h with h' | h'
      · exact Or.inr (Or.inl h')
      · rcases strLe_total a.date b.date with hd | hd
        · exact Or.inl (Or.inr ⟨h'.symm, hd⟩)
        · exact Or.inr (Or.inr ⟨h', hd⟩)⟩

instance : IsTrans JoinedRow lexLe :=
  ⟨fun a b c hab hbc => by
    unfold lexLe at *
    rcases hab with h1 | ⟨h1, hd1⟩
    · rcases hbc with h2 | ⟨h2, _⟩
      · exact Or.inl (strLt_trans h1 h2)
      · exact Or.inl (h2 ▸ h1)
    · rcases hbc with h2 | ⟨h2, hd2⟩
      · exact Or.inl (h1 ▸ h2)
      · exact Or.inr ⟨h1.trans h2, strLe_trans hd1 hd2⟩⟩

/-- Embedding of `sort_values(by=['id', 'date'])`. -/
def sortRows (l : List JoinedRow) : List JoinedRow :=
  List.insertionSort lexLe l

/-- Percentage change of a row against the most recent earlier row with
the same `id` (the row `groupby('id')['price'].pct_change()` divides by):
`none` when there is no such row, or when the earlier price is zero (the
numpy division is then non-finite). -/
def pctOf (seen : List JoinedRow) (r : JoinedRow) : Option ℚ :=
  match seen.find? fun p => p.id == r.id with
  | none => none
  | some p => if p.price = 0 then none else some ((r.price - p.price) / p.price * 100)

/-- Extend a joined row with its `price_pct_change` and
`metric = price_pct_change * weight` columns; a non-finite operand makes
the product non-finite. -/
def mkMerged (r : JoinedRow) (pct : Option ℚ) : MergedRow :=
  { toJoinedRow := r, price_pct_change := pct,
    metric :=
      match pct, r.weight with
      | some x, some w => some (x * w)
      | _, _ => none }

/-- Walk the sorted rows front to back carrying the already-visited rows
(most recent first), attaching `price_pct_change` and `metric` to each. -/
def addPctAux (seen : List JoinedRow) : List JoinedRow → List MergedRow
  | [] => []
  | r :: rest => mkMerged r (pctOf seen r) :: addPctAux (r :: seen) rest

/-- Embedding of the two column assignments
`groupby('id')['price'].pct_change() * 100` and
`price_pct_change * weight` over the sorted frame. -/
def addPct (l : List JoinedRow) : List MergedRow :=
  addPctAux [] l

/-- Embedding of `Crypto.nasdaq_data_transform` applied to the index
table `df` and the already-fetched benchmark table `nasdaq_data`: inner
join on date, sort by `(id, date)`, then derive `price_pct_change` and
`metric`. -/
def nasdaq_data_transform (df : List IndexRow) (nasdaq_data : List BenchRow) : List MergedRow :=
  addPct (sortRows (mergeRows df nasdaq_data))

/-- Lexicographic minimum of two strings. -/
def minStr (a b : String) : String :=
  if strLe a b then a else b

/-- Lexicographic maximum of two strings. -/
def maxStr (a b : String) : String :=
  if strLe a b then b else a

/-- Lexicographic minimum of a list of date strings,
`self.df['date'].min()` (chronological order for four-digit years). -/
def dmin : List String → Option String
  | [] => none
  | d :: ds => some (ds.foldl minStr d)

/-- Lexicographic maximum, `self.df['date'].max()`. -/
def dmax : List String → Option String
  | [] => none
  | d :: ds => some (ds.foldl maxStr d)

/-- Embedding of the pipeline part of `Crypto.run_script`: transform the
fetched asset data, derive the benchmark range as the minimum and maximum
of the index dates, fetch the benchmark for that range and merge.
`bench` is the benchmark fetcher's full trading history.  `none` models a
run that raises before producing `merged_df`. -/
def run_script (input : List AssetFetch) (bench : List BenchRow) : Option (List MergedRow) :=
  (data_transform input).bind fun rows =>
    match dmin (rows.map fun r => r.date), dmax (rows.map fun r => r.date) with
    | some s, some e => some (nasdaq_data_transform rows (yahoo_download bench s e))
    | _, _ => none

/-- Column sum as `groupby(...).agg('sum')` computes it for a float
column: NaN entries are skipped, and an all-NaN group sums to zero. -/
def aggSum (l : List (Option ℚ)) : ℚ :=
  (l.filterMap id).sum

/-- Data-preparation part of `Crypto.comparison_graph` for the default
column choices (`metric` on the left axis, `Close` on the right): filter
the merged table to one asset, then group by date — pandas `groupby`
returns its keys sorted ascending and deduplicated — summing each of the
two plotted columns over every date group. -/
def comparison_data (merged : List MergedRow) (id : String) : List (String × ℚ × ℚ) :=
  let f := merged.filter fun r => r.id == id
  let ds := List.insertionSort strLe (f.map fun r => r.date).dedup
  ds.map fun d =>
    (d, aggSum ((f.filter fun r => r.date == d).map fun r => r.metric),
        ((f.filter fun r => r.date == d).map fun r => r.closeP).sum)

/-- Observable outcome of `Crypto.comparison_graph`: either the early
no-data return (which only prints a message) or a rendering call on the
aggregated series. -/
inductive PresenterResult where
  | noData : PresenterResult
  | rendered : List (String × ℚ × ℚ) → PresenterResult
  deriving DecidableEq

/-- Embedding of `Crypto.comparison_graph`: report and return when the
merged table is empty, otherwise render the filtered, aggregated, sorted
series. -/
def comparison_graph (merged : List MergedRow) (id : String) : PresenterResult :=
  if merged.isEmpty then PresenterResult.noData
  else PresenterResult.rendered (comparison_data merged id)

/-- Mutable state of a `Crypto` instance: its `df` and `merged_df`
fields. -/
structure CryptoState where
  df : List IndexRow
  merged_df : List MergedRow
  deriving DecidableEq

/-- `Crypto.data_transform` as a state transformer: it assigns `self.df`
and touches nothing else (`none` models a raised exception). -/
def data_transform_method (s : CryptoState) (input : List AssetFetch) : Option CryptoState :=
  (data_transform input).map fun rows => { s with df := rows }

/-- `Crypto.comparison_graph` as a state transformer: it reads
`self.merged_df` through a `.copy()` and returns the unchanged state
together with the presenter outcome. -/
def comparison_graph_method (s : CryptoState) (id : String) : CryptoState × PresenterResult :=
  (s, comparison_graph s.merged_df id)

theorem foldl_minStr_mem (ds : List String) :
    ∀ a, ds.foldl minStr a = a ∨ ds.foldl minStr a ∈ ds := by
  induction ds with
  | nil => intro a; exact Or.inl rfl
  | cons b bs ih =>
    intro a
    rw [List.foldl_cons]
    rcases ih (minStr a b) with h | h
    · rw [h]
      unfold minStr
      by_cases hab : strLe a b
      · rw [if_pos hab]; exact Or.inl rfl
      · rw [if_neg hab]; exact Or.inr (List.mem_cons_self b bs)
    · exact Or.inr (List.mem_cons_of_mem b h)

theorem minStr_le_left (a b : String) : strLe (minStr a b) a := by
  unfold minStr
  by_cases h : strLe a b
  · rw [if_pos h]; exact strLe_refl a
  · rw [if_neg h]
    rcases strLe_total a b with h' | h'
    · exact absurd h' h
    · exact h'

theorem minStr_le_right (a b : String) : strLe (minStr a b) b := by
  unfold minStr
  by_cases h : strLe a b
  · rw [if_pos h]; exact h
  · rw [if_neg h]; exact strLe_refl b

theorem maxStr_ge_left (a b : String) : strLe a (maxStr a b) := by
  unfold maxStr
  by_cases h : strLe a b
  · rw [if_pos h]; exact h
  · rw [if_neg h]; exact strLe_refl a

theorem maxStr_ge_right (a b : String) : strLe b (maxStr a b) := by
  unfold maxStr
  by_cases h : strLe a b
  · rw [if_pos h]; exact strLe_refl b
  · rw [if_neg h]
    rcases strLe_total a b with h' | h'
    · exact absurd h' h
    · exact h'

theorem foldl_minStr_le (ds : List String) :
    ∀ a, strLe (ds.foldl minStr a) a ∧ ∀ d ∈ ds, strLe (ds.foldl minStr a) d := by
  induction ds with
  | nil => intro a; exact ⟨strLe_refl a, by simp⟩
  | cons b bs ih =>
    intro a
    rw [List.foldl_cons]
    obtain ⟨h1, h2⟩ := ih (minStr a b)
    refine ⟨strLe_trans h1 (minStr_le_left a b), ?_⟩
    intro d hd
    rcases List.mem_cons.1 hd with rfl | hd
    · exact strLe_trans h1 (minStr_le_right a d)
    · exact h2 d hd

theorem foldl_maxStr_mem (ds : List String) :
    ∀ a, ds.foldl maxStr a = a ∨ ds.foldl maxStr a ∈ ds := by
  induction ds with
  | nil => intro a; exact Or.inl rfl
  | cons b bs ih =>
    intro a
    rw [List.foldl_cons]
    rcases ih (maxStr a b) with h | h
    · rw [h]
      unfold maxStr
      by_cases hab : strLe a b
      · rw [if_pos hab]; exact Or.inr (List.mem_cons_self b bs)
      · rw [if_neg hab]; exact Or.inl rfl
    · exact Or.inr (List.mem_cons_of_mem b h)

theorem foldl_maxStr_ge (ds : List String) :
    ∀ a, strLe a (ds.foldl maxStr a) ∧ ∀ d ∈ ds, strLe d (ds.foldl maxStr a) := by
  induction ds with
  | nil => intro a; exact ⟨strLe_refl a, by simp⟩
  | cons b bs ih =>
    intro a
    rw [List.foldl_cons]
    obtain ⟨h1, h2⟩ := ih (maxStr a b)
    refine ⟨strLe_trans (maxStr_ge_left a b) h1, ?_⟩
    intro d hd
    rcases List.mem_cons.1 hd with rfl | hd
    · exact strLe_trans (maxStr_ge_right a d) h1
    · exact h2 d hd

theorem dmin_spec {l : List String} {m : String} (h : dmin l = some m) :
    m ∈ l ∧ ∀ d ∈ l, strLe m d := by
  cases l with
  | nil => simp [dmin] at h
  | cons d ds =>
    simp only [dmin, Option.some.injEq] at h
    subst h
    constructor
    · rcases foldl_minStr_mem ds d with h | h
      · rw [h]; exact List.mem_cons_self d ds
      · exact List.mem_cons_of_mem d h
    · intro x hx
      obtain ⟨h1, h2⟩ := foldl_minStr_le ds d
      rcases List.mem_cons.1 hx with rfl | hx
      · exact h1
      · exact h2 x hx

theorem dmax_spec {l : List String} {M : String} (h : dmax l = some M) :
    M ∈ l ∧ ∀ d ∈ l, strLe d M := by
  cases l with
  | nil => simp [dmax] at h
  | cons d ds =>
    simp only [dmax, Option.some.injEq] at h
    subst h
    constructor
    · rcases foldl_maxStr_mem ds d with h | h
      · rw [h]; exact List.mem_cons_self d ds
      · exact List.mem_cons_of_mem d h
    · intro x hx
      obtain ⟨h1, h2⟩ := foldl_maxStr_ge ds d
      rcases List.mem_cons.1 hx with rfl | hx
      · exact h1
      · exact h2 x hx

/-- C9 counterexample: the claim says `convert_timestamp` is total and
never crashes on any integer input, but
`datetime.datetime.utcfromtimestamp` raises for datetimes before year 1,
so the source crashes on this input (modelled as `none`). -/
theorem convert_timestamp_out_of_range_cex :
    convert_timestamp (-100000000000000000) = none := by decide

/-- C9 (amended): on every input within the range supported by
`datetime` (years 1..9999), `convert_timestamp` succeeds and returns a
date string; nonpositive inputs land on days at or before the epoch, and
the two anchor inputs map to 1970-01-01 and 1970-01-02. -/
theorem convert_timestamp_total_in_range (t : Int) (h₁ : tsMin ≤ t) (h₂ : t < tsMax) :
    (convert_timestamp t).isSome = true ∧ (t ≤ 0 → msToDay t ≤ 0) ∧
      convert_timestamp 0 = some "1970-01-01" ∧
      convert_timestamp 86400000 = some "1970-01-02" := by
  refine ⟨?_, ?_, by decide, by decide⟩
  · unfold convert_timestamp
    rw [if_pos ⟨h₁, h₂⟩]
    rfl
  · intro ht
    unfold msToDay
    rw [Int.fdiv_eq_ediv _ (by decide)]
    calc t / 86400000 ≤ 0 / 86400000 := Int.ediv_le_ediv (by decide) ht
    _ = 0 := Int.zero_ediv _

/-- C9 witness: the amended theorem applied at input 0. -/
theorem convert_timestamp_total_in_range_witness :
    (convert_timestamp 0).isSome = true ∧ ((0 : Int) ≤ 0 → msToDay 0 ≤ 0) ∧
      convert_timestamp 0 = some "1970-01-01" ∧
      convert_timestamp 86400000 = some "1970-01-02" :=
  convert_timestamp_total_in_range 0 (by decide) (by decide)

/-- C8: on an empty merged table, `comparison_graph` reports the no-data
condition and performs no rendering call, whatever the asset id. -/
theorem comparison_graph_empty_noData (id : String) :
    comparison_graph [] id = PresenterResult.noData := rfl

/-- C10: `data_transform` writes only the `df` field of the `Crypto`
state, leaving `merged_df` unchanged, and `comparison_graph` changes
neither stored table. -/
theorem data_transform_comparison_graph_frame (s : CryptoState) (input : List AssetFetch)
    (s₂ : CryptoState) (h : data_transform_method s input = some s₂) :
    s₂.merged_df = s.merged_df ∧
      ∀ (t : CryptoState) (id : String), (comparison_graph_method t id).1 = t := by
  refine ⟨?_, fun t id => rfl⟩
  unfold data_transform_method at h
  cases hdt : data_transform input with
  | none => rw [hdt] at h; simp at h
  | some rows =>
    rw [hdt] at h
    simp only [Option.map_some', Option.some.injEq] at h
    rw [← h]

section
attribute [local semireducible] Rat.add Rat.mul Rat.inv Rat.sub

/-- C10 witness: the frame theorem applied to a state with empty tables
and a one-asset fetch. -/
theorem data_transform_comparison_graph_frame_witness :
    (CryptoState.mk [IndexRow.mk "1970-01-01" 1 2 "a" (some 1) (some 1)] []).merged_df =
        (CryptoState.mk [] []).merged_df ∧
      ∀ (t : CryptoState) (id : String), (comparison_graph_method t id).1 = t :=
  data_transform_comparison_graph_frame (CryptoState.mk [] [])
    [AssetFetch.mk "a" [(0, 1)] [(0, 2)]]
    (CryptoState.mk [IndexRow.mk "1970-01-01" 1 2 "a" (some 1) (some 1)] [])
    (by decide)

end

theorem mapM_option_length {α β : Type} (f : α → Option β) :
    ∀ (l : List α) (l₂ : List β), l.mapM f = some l₂ → l₂.length = l.length := by
  intro l
  induction l with
  | nil =>
    intro l₂ h
    simp only [List.mapM_nil, pure, Option.some.injEq] at h
    rw [← h]
    rfl
  | cons a as ih =>
    intro l₂ h
    rw [List.mapM_cons] at h
    cases hfa : f a with
    | none => rw [hfa] at h; simp at h
    | some b =>
      rw [hfa] at h
      cases hmm : as.mapM f with
      | none => rw [hmm] at h; simp at h
      | some bs =>
        rw [hmm] at h
        have h' : b :: bs = l₂ := Option.some.inj h
        rw [← h']
        simp [ih bs hmm]

theorem buildObs_length :
    ∀ (input : List AssetFetch) (obs : List AssetObservation), buildObs input = some obs →
      obs.length = (input.map fun a => min a.prices.length a.market_caps.length).sum := by
  intro input
  induction input with
  | nil =>
    intro obs h
    simp only [buildObs, List.mapM_nil, pure, Option.map_some', Option.some.injEq] at h
    rw [← h]
    rfl
  | cons a as ih =>
    intro obs h
    unfold buildObs at h
    rw [List.mapM_cons] at h
    cases hfa : perAssetRows a with
    | none => rw [hfa] at h; simp at h
    | some l =>
      rw [hfa] at h
      cases hmm : as.mapM perAssetRows with
      | none => rw [hmm] at h; simp at h
      | some ls =>
        rw [hmm] at h
        have h' : (l :: ls).flatten = obs := Option.some.inj h
        rw [← h']
        have hl : l.length = min a.prices.length a.market_caps.length := by
          unfold perAssetRows at hfa
          have := mapM_option_length _ _ _ hfa
          rw [this, List.length_zip]
        have hrest : ls.flatten.length =
            (as.map fun a => min a.prices.length a.market_caps.length).sum := by
          apply ih
          unfold buildObs
          rw [hmm]
          rfl
        simp only [List.flatten_cons, List.length_append, List.map_cons, List.sum_cons]
        rw [hl, hrest]

section
attribute [local semireducible] Rat.add Rat.mul Rat.inv Rat.sub

/-- C6 counterexample: with a two-element price array and a one-element
market-cap array for one asset, `data_transform` surfaces no error at
all: Python `zip` silently pairs the common prefix and one row is built
(refuting the claim that a `DataIntegrityError` is surfaced instead of
building rows). -/
theorem data_transform_mismatched_lengths_cex :
    data_transform [AssetFetch.mk "a" [(0, 1), (86400000, 2)] [(0, 5)]] =
      some [IndexRow.mk "1970-01-01" 1 5 "a" (some 1) (some 1)] := by decide

end

/-- C6 (amended): on mismatched-length price/market-cap arrays,
`data_transform` raises nothing and silently pairs the two arrays by
position up to the shorter length: the output holds exactly
`min |prices| |market_caps|` rows per asset. -/
theorem data_transform_zip_truncates (input : List AssetFetch) (out : List IndexRow)
    (hdt : data_transform input = some out) :
    out.length = (input.map fun a => min a.prices.length a.market_caps.length).sum := by
  unfold data_transform at hdt
  cases hb : buildObs input with
  | none => rw [hb] at hdt; simp at hdt
  | some obs =>
    rw [hb] at hdt
    simp only [Option.map_some', Option.some.injEq] at hdt
    rw [← hdt]
    unfold addWeights
    rw [List.length_map]
    exact buildObs_length input obs hb

section
attribute [local semireducible] Rat.add Rat.mul Rat.inv Rat.sub

/-- C6 witness: the truncation theorem applied to the mismatched-length
input, whose single output row is the zip of the common prefix. -/
theorem data_transform_zip_truncates_witness :
    ([IndexRow.mk "1970-01-01" 1 5 "a" (some 1) (some 1)] : List IndexRow).length =
      ([AssetFetch.mk "a" [(0, 1), (86400000, 2)] [(0, 5)]].map
        fun a => min a.prices.length a.market_caps.length).sum :=
  data_transform_zip_truncates _ _ (by decide)

end

theorem addWeights_filter_date (obs : List AssetObservation) (d : String) :
    (addWeights obs).filter (fun r => r.date == d) =
      (obs.filter fun x => x.date == d).map (weighRow obs) := by
  unfold addWeights
  rw [List.filter_map]
  rfl

theorem addWeights_filter_market_cap (obs : List AssetObservation) (d : String) :
    (((addWeights obs).filter fun r => r.date == d).map fun r => r.market_cap).sum =
      rowTotal obs d := by
  rw [addWeights_filter_date, List.map_map]
  rfl

/-- C5: when a date group's total market cap is zero, the numpy division
leaves the group's `weight` and `index` non-finite — an explicit
flagged/undefined value, modelled as `none`, never the number zero — and
no row is dropped: the output keeps one row per built observation. -/
theorem data_transform_zero_total_flagged (input : List AssetFetch) (out : List IndexRow)
    (r : IndexRow) (hdt : data_transform input = some out) (hr : r ∈ out)
    (hz : ((out.filter fun x => x.date == r.date).map fun x => x.market_cap).sum = 0) :
    r.weight = none ∧ r.index = none ∧
      ∀ obs, buildObs input = some obs → out.length = obs.length := by
  unfold data_transform at hdt
  cases hb : buildObs input with
  | none => rw [hb] at hdt; simp at hdt
  | some obs =>
    rw [hb] at hdt
    simp only [Option.map_some', Option.some.injEq] at hdt
    subst hdt
    obtain ⟨x, hx, hxr⟩ := List.mem_map.1 hr
    have hdate : r.date = x.date := by rw [← hxr]; rfl
    rw [hdate] at hz
    rw [addWeights_filter_market_cap] at hz
    refine ⟨?_, ?_, ?_⟩
    · rw [← hxr]
      show (if rowTotal obs x.date = 0 then none
        else some (x.market_cap / rowTotal obs x.date)) = none
      rw [if_pos hz]
    · rw [← hxr]
      show (if rowTotal obs x.date = 0 then none
        else some (x.market_cap / rowTotal obs x.date * x.price)) = none
      rw [if_pos hz]
    · intro obs₂ hb₂
      cases hb₂
      exact List.length_map obs (weighRow obs)

/-- C1: for every date present in the output whose total market cap is
non-zero, with no asset duplicated on the date, every row of the date
group carries a defined weight and the weights of the group sum to
exactly 1 (exact rational arithmetic). -/
theorem data_transform_weights_sum_to_one (input : List AssetFetch) (out : List IndexRow)
    (d : String) (hdt : data_transform input = some out)
    (hd : d ∈ out.map fun r => r.date)
    (hnz : ((out.filter fun x => x.date == d).map fun x => x.market_cap).sum ≠ 0)
    (hnodup : ((out.filter fun x => x.date == d).map fun x => x.id).Nodup) :
    (∀ r ∈ out, r.date = d → ∃ w, r.weight = some w) ∧
      ((out.filter fun x => x.date == d).filterMap fun x => x.weight).sum = 1 := by
  unfold data_transform at hdt
  cases hb : buildObs input with
  | none => rw [hb] at hdt; simp at hdt
  | some obs =>
    rw [hb] at hdt
    simp only [Option.map_some', Option.some.injEq] at hdt
    subst hdt
    rw [addWeights_filter_market_cap] at hnz
    constructor
    · intro r hr hrd
      obtain ⟨x, hx, hxr⟩ := List.mem_map.1 hr
      have hdate : x.date = d := by rw [← hrd, ← hxr]; rfl
      refine ⟨x.market_cap / rowTotal obs d, ?_⟩
      rw [← hxr]
      show (if rowTotal obs x.date = 0 then none
        else some (x.market_cap / rowTotal obs x.date)) =
        some (x.market_cap / rowTotal obs d)
      rw [hdate, if_neg hnz]
    · rw [addWeights_filter_date, List.filterMap_map]
      have hcongr : ((obs.filter fun x => x.date == d).filterMap
            ((fun r => r.weight) ∘ weighRow obs)) =
          (obs.filter fun x => x.date == d).filterMap
            (fun x => some (x.market_cap / rowTotal obs d)) := by
        apply List.filterMap_congr
        intro x hx
        have hdate : x.date = d := by
          have := List.of_mem_filter hx
          exact beq_iff_eq.1 this
        show (if rowTotal obs x.date = 0 then none
          else some (x.market_cap / rowTotal obs x.date)) = _
        rw [hdate, if_neg hnz]
      rw [hcongr]
      have : ((obs.filter fun x => x.date == d).filterMap
            fun x => some (x.market_cap / rowTotal obs d)) =
          (obs.filter fun x => x.date == d).map
            fun x => x.market_cap * (rowTotal obs d)⁻¹ := by
        rw [← List.filterMap_eq_map]
        apply List.filterMap_congr
        intro x _
        rw [Function.comp_apply, div_eq_mul_inv]
      rw [this, List.sum_map_mul_right]
      have hT : ((obs.filter fun x => x.date == d).map fun x => x.market_cap).sum =
          rowTotal obs d := rfl
      rw [hT, mul_inv_cancel₀ hnz]

section
attribute [local semireducible] Rat.add Rat.mul Rat.inv Rat.sub

/-- C5 witness: one asset with market cap 0 on its only date; the zero
total leaves weight and index flagged `none` and the row kept. -/
theorem data_transform_zero_total_flagged_witness :
    (IndexRow.mk "1970-01-01" 5 0 "a" none none).weight = none ∧
      (IndexRow.mk "1970-01-01" 5 0 "a" none none).index = none ∧
      ∀ obs, buildObs [AssetFetch.mk "a" [(0, 5)] [(0, 0)]] = some obs →
        ([IndexRow.mk "1970-01-01" 5 0 "a" none none] : List IndexRow).length = obs.length :=
  data_transform_zero_total_flagged [AssetFetch.mk "a" [(0, 5)] [(0, 0)]]
    [IndexRow.mk "1970-01-01" 5 0 "a" none none]
    (IndexRow.mk "1970-01-01" 5 0 "a" none none)
    (by decide) (by decide) (by decide)

/-- C1 witness: two assets sharing one date with market caps 100 and
300; the weights are 1/4 and 3/4 and sum to exactly 1. -/
theorem data_transform_weights_sum_to_one_witness :
    (∀ r ∈ [IndexRow.mk "1970-01-01" 3 100 "a" (some (1/4)) (some (3/4)),
            IndexRow.mk "1970-01-01" 7 300 "b" (some (3/4)) (some (21/4))],
        r.date = "1970-01-01" → ∃ w, r.weight = some w) ∧
      (([IndexRow.mk "1970-01-01" 3 100 "a" (some (1/4)) (some (3/4)),
         IndexRow.mk "1970-01-01" 7 300 "b" (some (3/4)) (some (21/4))].filter
            fun x => x.date == "1970-01-01").filterMap fun x => x.weight).sum = 1 :=
  data_transform_weights_sum_to_one
    [AssetFetch.mk "a" [(0, 3)] [(0, 100)], AssetFetch.mk "b" [(0, 7)] [(0, 300)]]
    [IndexRow.mk "1970-01-01" 3 100 "a" (some (1/4)) (some (3/4)),
     IndexRow.mk "1970-01-01" 7 300 "b" (some (3/4)) (some (21/4))]
    "1970-01-01" (by decide) (by decide) (by decide) (by decide)

end

theorem addPctAux_map_date : ∀ (l seen : List JoinedRow),
    (addPctAux seen l).map (fun r => r.date) = l.map (fun j => j.date) := by
  intro l
  induction l with
  | nil => intro seen; rfl
  | cons j rest ih =>
    intro seen
    simp only [addPctAux, List.map_cons]
    rw [ih (j :: seen)]
    rfl

theorem mergeRows_date_mem {df : List IndexRow} {nd : List BenchRow} {d : String}
    (h : d ∈ (mergeRows df nd).map fun j => j.date) :
    (∃ x ∈ df, x.date = d) ∧ (∃ b ∈ nd, b.date = d) := by
  obtain ⟨j, hj, hjd⟩ := List.mem_map.1 h
  unfold mergeRows at hj
  obtain ⟨L, hL, hjL⟩ := List.mem_flatten.1 hj
  obtain ⟨x, hx, hLx⟩ := List.mem_map.1 hL
  rw [← hLx] at hjL
  obtain ⟨b, hb, hjb⟩ := List.mem_map.1 hjL
  have hbnd : b ∈ nd := (List.mem_filter.1 hb).1
  have hbdate : b.date = x.date := beq_iff_eq.1 (List.mem_filter.1 hb).2
  have hjdate : j.date = x.date := by rw [← hjb]; rfl
  constructor
  · exact ⟨x, hx, by rw [← hjd, hjdate]⟩
  · exact ⟨b, hbnd, by rw [← hjd, hjdate, hbdate]⟩

theorem mergeRows_mem_of {df : List IndexRow} {nd : List BenchRow} {x : IndexRow}
    {b : BenchRow} (hx : x ∈ df) (hb : b ∈ nd) (hdate : b.date = x.date) :
    joinRow x b ∈ mergeRows df nd := by
  unfold mergeRows
  apply List.mem_flatten.2
  refine ⟨(nd.filter fun c => c.date == x.date).map (joinRow x), List.mem_map_of_mem _ hx, ?_⟩
  apply List.mem_map_of_mem
  exact List.mem_filter.2 ⟨hb, beq_iff_eq.2 hdate⟩

theorem nasdaq_map_date (df : List IndexRow) (nd : List BenchRow) :
    List.Perm ((nasdaq_data_transform df nd).map fun r => r.date)
      ((mergeRows df nd).map fun j => j.date) := by
  unfold nasdaq_data_transform addPct
  rw [addPctAux_map_date]
  exact (List.perm_insertionSort lexLe (mergeRows df nd)).map _

/-- C3: the Series Merger never produces a row whose date is missing from
either input table: every output date belongs to both the index table and
the benchmark table (inner-join exclusion law). -/
theorem nasdaq_merge_dates_subset (df : List IndexRow) (nd : List BenchRow) (r : MergedRow)
    (hr : r ∈ nasdaq_data_transform df nd) :
    (∃ x ∈ df, x.date = r.date) ∧ (∃ b ∈ nd, b.date = r.date) := by
  have hd : r.date ∈ (nasdaq_data_transform df nd).map fun r => r.date :=
    List.mem_map_of_mem _ hr
  exact mergeRows_date_mem ((nasdaq_map_date df nd).mem_iff.1 hd)

section
attribute [local semireducible] Rat.add Rat.mul Rat.inv Rat.sub

/-- C3 witness: a one-row index table and a one-row benchmark table with
the same date; the single merged row's date lies in both inputs. -/
theorem nasdaq_merge_dates_subset_witness :
    (∃ x ∈ [IndexRow.mk "1970-01-01" 1 2 "a" (some 1) (some 1)],
        x.date = (MergedRow.mk
          (JoinedRow.mk "1970-01-01" 1 2 "a" (some 1) (some 1) 1 1 1 1 1) none none).date) ∧
      (∃ b ∈ [BenchRow.mk "1970-01-01" 1 1 1 1 1],
        b.date = (MergedRow.mk
          (JoinedRow.mk "1970-01-01" 1 2 "a" (some 1) (some 1) 1 1 1 1 1) none none).date) :=
  nasdaq_merge_dates_subset [IndexRow.mk "1970-01-01" 1 2 "a" (some 1) (some 1)]
    [BenchRow.mk "1970-01-01" 1 1 1 1 1]
    (MergedRow.mk (JoinedRow.mk "1970-01-01" 1 2 "a" (some 1) (some 1) 1 1 1 1 1) none none)
    (by decide)

end

/-- C4: for a non-empty index table, `run_script` derives the benchmark
range as the minimum and maximum index date; the fetch over that range
(both endpoints inclusive, per the spec contract of the benchmark
fetcher) covers exactly the observed window, so a benchmark trading day
equal to the maximum date is fetched and survives the inner join. -/
theorem run_script_range_covers_max (input : List AssetFetch) (bench : List BenchRow)
    (rows : List IndexRow) (m M : String) (b : BenchRow)
    (hdt : data_transform input = some rows)
    (hm : dmin (rows.map fun r => r.date) = some m)
    (hM : dmax (rows.map fun r => r.date) = some M)
    (hb : b ∈ bench) (hbd : b.date = M) :
    (∀ r ∈ rows, strLe m r.date ∧ strLe r.date M) ∧
      b ∈ yahoo_download bench m M ∧
      run_script input bench =
        some (nasdaq_data_transform rows (yahoo_download bench m M)) ∧
      ∃ mr ∈ nasdaq_data_transform rows (yahoo_download bench m M), mr.date = M := by
  obtain ⟨hmmem, hmlb⟩ := dmin_spec hm
  obtain ⟨hMmem, hMub⟩ := dmax_spec hM
  have hbf : b ∈ yahoo_download bench m M := by
    unfold yahoo_download
    apply List.mem_filter.2
    refine ⟨hb, ?_⟩
    rw [hbd]
    exact decide_eq_true ⟨hmlb _ hMmem, strLe_refl M⟩
  refine ⟨?_, hbf, ?_, ?_⟩
  · intro r hr
    exact ⟨hmlb _ (List.mem_map_of_mem _ hr), hMub _ (List.mem_map_of_mem _ hr)⟩
  · unfold run_script
    rw [hdt]
    show (match dmin (rows.map fun r => r.date), dmax (rows.map fun r => r.date) with
      | some s, some e => some (nasdaq_data_transform rows (yahoo_download bench s e))
      | _, _ => none) =
      some (nasdaq_data_transform rows (yahoo_download bench m M))
    rw [hm, hM]
  · obtain ⟨x, hx, hxM⟩ := List.mem_map.1 hMmem
    have hj : joinRow x b ∈ mergeRows rows (yahoo_download bench m M) :=
      mergeRows_mem_of hx hbf (by rw [hbd, hxM])
    have hjd : (joinRow x b).date = M := hxM
    have hdmem : M ∈ (nasdaq_data_transform rows (yahoo_download bench m M)).map
        fun r => r.date := by
      apply (nasdaq_map_date rows (yahoo_download bench m M)).mem_iff.2
      exact List.mem_map.2 ⟨joinRow x b, hj, hjd⟩
    obtain ⟨mr, hmr, hmrd⟩ := List.mem_map.1 hdmem
    exact ⟨mr, hmr, hmrd⟩

section
attribute [local semireducible] Rat.add Rat.mul Rat.inv Rat.sub

/-- C4 witness: one asset over two days; the derived range is the two
observed dates and the benchmark row on the maximum date is fetched and
appears in the merged output. -/
theorem run_script_range_covers_max_witness :
    (∀ r ∈ [IndexRow.mk "1970-01-01" 1 10 "a" (some 1) (some 1),
            IndexRow.mk "1970-01-02" 2 10 "a" (some 1) (some 2)],
        strLe "1970-01-01" r.date ∧ strLe r.date "1970-01-02") ∧
      BenchRow.mk "1970-01-02" 1 1 1 2 1 ∈
        yahoo_download [BenchRow.mk "1970-01-02" 1 1 1 2 1] "1970-01-01" "1970-01-02" ∧
      run_script [AssetFetch.mk "a" [(0, 1), (86400000, 2)] [(0, 10), (86400000, 10)]]
          [BenchRow.mk "1970-01-02" 1 1 1 2 1] =
        some (nasdaq_data_transform
          [IndexRow.mk "1970-01-01" 1 10 "a" (some 1) (some 1),
           IndexRow.mk "1970-01-02" 2 10 "a" (some 1) (some 2)]
          (yahoo_download [BenchRow.mk "1970-01-02" 1 1 1 2 1] "1970-01-01" "1970-01-02")) ∧
      ∃ mr ∈ nasdaq_data_transform
          [IndexRow.mk "1970-01-01" 1 10 "a" (some 1) (some 1),
           IndexRow.mk "1970-01-02" 2 10 "a" (some 1) (some 2)]
          (yahoo_download [BenchRow.mk "1970-01-02" 1 1 1 2 1] "1970-01-01" "1970-01-02"),
        mr.date = "1970-01-02" :=
  run_script_range_covers_max
    [AssetFetch.mk "a" [(0, 1), (86400000, 2)] [(0, 10), (86400000, 10)]]
    [BenchRow.mk "1970-01-02" 1 1 1 2 1]
    [IndexRow.mk "1970-01-01" 1 10 "a" (some 1) (some 1),
     IndexRow.mk "1970-01-02" 2 10 "a" (some 1) (some 2)]
    "1970-01-01" "1970-01-02" (BenchRow.mk "1970-01-02" 1 1 1 2 1)
    (by decide) (by decide) (by decide) (by decide) (by decide)

end

/-- C7: for every merged table and asset id, the Presenter's data
preparation has one entry per date occurring among the rows of that
asset; the entry's two plotted values are the sums (not averages) of the
left and right metric over the rows sharing that date, and the entries
are sorted strictly by date before rendering. -/
theorem comparison_graph_sum_sorted (merged : List MergedRow) (id : String) :
    List.Sorted strLt ((comparison_data merged id).map fun e => e.1) ∧
      ∀ d ∈ (merged.filter fun r => r.id == id).map (fun r => r.date),
        (d,
          aggSum (((merged.filter fun r => r.id == id).filter
            fun r => r.date == d).map fun r => r.metric),
          (((merged.filter fun r => r.id == id).filter
            fun r => r.date == d).map fun r => r.closeP).sum) ∈
          comparison_data merged id := by
  constructor
  · have h1 : (comparison_data merged id).map (fun e => e.1) =
        List.insertionSort strLe
          ((merged.filter fun r => r.id == id).map (fun r => r.date)).dedup := by
      unfold comparison_data
      rw [List.map_map]
      dsimp only [Function.comp_def]
      exact List.map_id _
    rw [h1]
    have hsorted : List.Sorted strLe (List.insertionSort strLe
        ((merged.filter fun r => r.id == id).map (fun r => r.date)).dedup) :=
      List.sorted_insertionSort strLe _
    have hnodup : (List.insertionSort strLe
        ((merged.filter fun r => r.id == id).map (fun r => r.date)).dedup).Nodup :=
      (List.perm_insertionSort strLe _).nodup_iff.2 (List.nodup_dedup _)
    exact (List.Pairwise.and hsorted hnodup).imp
      (fun h => (strLt_or_eq_of_le h.1).resolve_right h.2)
  · intro d hd
    have hds : d ∈ List.insertionSort strLe
        ((merged.filter fun r => r.id == id).map (fun r => r.date)).dedup :=
      (List.perm_insertionSort strLe _).mem_iff.2 (List.mem_dedup.2 hd)
    exact List.mem_map_of_mem _ hds

/-- C7 witness: the aggregation theorem instantiated at a two-row merged
table whose rows share one date, so their metrics are summed. -/
theorem comparison_graph_sum_sorted_witness :
    List.Sorted strLt ((comparison_data
        [MergedRow.mk (JoinedRow.mk "1970-01-01" 1 2 "a" (some 1) (some 1) 1 1 1 5 1) none none,
         MergedRow.mk (JoinedRow.mk "1970-01-01" 3 2 "a" (some 1) (some 3) 1 1 1 7 1)
           (some 2) (some 2)] "a").map fun e => e.1) ∧
      ∀ d ∈ (([MergedRow.mk (JoinedRow.mk "1970-01-01" 1 2 "a" (some 1) (some 1) 1 1 1 5 1)
              none none,
            MergedRow.mk (JoinedRow.mk "1970-01-01" 3 2 "a" (some 1) (some 3) 1 1 1 7 1)
              (some 2) (some 2)].filter fun r => r.id == "a").map fun r => r.date),
        (d,
          aggSum ((([MergedRow.mk
                (JoinedRow.mk "1970-01-01" 1 2 "a" (some 1) (some 1) 1 1 1 5 1) none none,
              MergedRow.mk (JoinedRow.mk "1970-01-01" 3 2 "a" (some 1) (some 3) 1 1 1 7 1)
                (some 2) (some 2)].filter fun r => r.id == "a").filter
            fun r => r.date == d).map fun r => r.metric),
          ((([MergedRow.mk
                (JoinedRow.mk "1970-01-01" 1 2 "a" (some 1) (some 1) 1 1 1 5 1) none none,
              MergedRow.mk (JoinedRow.mk "1970-01-01" 3 2 "a" (some 1) (some 3) 1 1 1 7 1)
                (some 2) (some 2)].filter fun r => r.id == "a").filter
            fun r => r.date == d).map fun r => r.closeP).sum) ∈
          comparison_data
            [MergedRow.mk (JoinedRow.mk "1970-01-01" 1 2 "a" (some 1) (some 1) 1 1 1 5 1)
               none none,
             MergedRow.mk (JoinedRow.mk "1970-01-01" 3 2 "a" (some 1) (some 3) 1 1 1 7 1)
               (some 2) (some 2)] "a" :=
  comparison_graph_sum_sorted
    [MergedRow.mk (JoinedRow.mk "1970-01-01" 1 2 "a" (some 1) (some 1) 1 1 1 5 1) none none,
     MergedRow.mk (JoinedRow.mk "1970-01-01" 3 2 "a" (some 1) (some 3) 1 1 1 7 1)
       (some 2) (some 2)] "a"

theorem lexLe_id {a b : JoinedRow} (h : lexLe a b) : strLe a.id b.id := by
  rcases h with h | ⟨h, _⟩
  · exact strLe_of_lt h
  · rw [h]
    exact strLe_refl _

theorem addPctAux_getElem : ∀ (l seen : List JoinedRow) (i : Nat),
    (addPctAux seen l)[i]? =
      (l[i]?).map fun r => mkMerged r (pctOf ((l.take i).reverse ++ seen) r) := by
  intro l
  induction l with
  | nil => intro seen i; simp [addPctAux]
  | cons x xs ih =>
    intro seen i
    cases i with
    | zero => simp [addPctAux]
    | succ n =>
      simp only [addPctAux, List.getElem?_cons_succ]
      rw [ih (x :: seen) n]
      simp [List.take_succ_cons, List.reverse_cons, List.append_assoc]

theorem take_succ_reverse {l : List JoinedRow} {i : Nat} {p : JoinedRow}
    (h : l[i]? = some p) : (l.take (i + 1)).reverse = p :: (l.take i).reverse := by
  rw [List.take_succ, h]
  simp

theorem sorted_no_earlier_id {l : List JoinedRow} (hs : List.Sorted lexLe l) {i : Nat}
    {p r : JoinedRow} (hp : l[i]? = some p) (hr : l[i + 1]? = some r) (hne : p.id ≠ r.id) :
    ∀ q ∈ l.take (i + 1), q.id ≠ r.id := by
  intro q hq
  obtain ⟨hi, hip⟩ := List.getElem?_eq_some.1 hp
  obtain ⟨hi1, hir⟩ := List.getElem?_eq_some.1 hr
  obtain ⟨j, hj, hqj⟩ := List.getElem_of_mem hq
  have hji : j < i + 1 := lt_of_lt_of_le hj (by rw [List.length_take]; exact min_le_left _ _)
  have hjlen : j < l.length := lt_of_lt_of_le hj (by
    rw [List.length_take]
    exact min_le_right _ _)
  have hip2 : l.get ⟨i, hi⟩ = p := by rw [List.get_eq_getElem]; exact hip
  have hir2 : l.get ⟨i + 1, hi1⟩ = r := by rw [List.get_eq_getElem]; exact hir
  have hqj2 : l.get ⟨j, hjlen⟩ = q := by
    rw [List.get_eq_getElem, ← hqj]
    simp
  rcases Nat.lt_or_ge j i with hlt | hge
  · -- strictly before position i: squeeze the ids through p
    intro heq
    have h1 : lexLe (l.get ⟨j, hjlen⟩) (l.get ⟨i, hi⟩) :=
      List.pairwise_iff_get.1 hs ⟨j, hjlen⟩ ⟨i, hi⟩ hlt
    have h2 : lexLe (l.get ⟨i, hi⟩) (l.get ⟨i + 1, hi1⟩) :=
      List.pairwise_iff_get.1 hs ⟨i, hi⟩ ⟨i + 1, hi1⟩ (Nat.lt_succ_self i)
    have hqp : strLe q.id p.id := by
      have := lexLe_id h1
      rwa [hqj2, hip2] at this
    have hpr : strLe p.id r.id := by
      have := lexLe_id h2
      rwa [hip2, hir2] at this
    rw [heq] at hqp
    exact hne (strLe_antisymm hpr hqp)
  · -- j = i: q is p itself
    have hj_eq : j = i := Nat.le_antisymm (Nat.lt_succ_iff.1 hji) hge
    subst hj_eq
    intro heq
    apply hne
    rw [← heq, ← hqj2, hip2]

/-- C2 (amended): in the Series Merger output, sorted by (id, date), the
first row of each asset group has undefined `price_pct_change`; every
later row of a group has `price_pct_change` equal to
`(price - prev_price) / prev_price * 100` against the immediately
preceding row of the group when that previous price is non-zero (and an
undefined, non-finite value when it is zero); `metric` is the product
`price_pct_change * weight`, defined exactly when both factors are. -/
theorem nasdaq_pct_change_adjacent_and_metric (df : List IndexRow) (nd : List BenchRow)
    (i : Nat) (r : MergedRow) (hr : (nasdaq_data_transform df nd)[i]? = some r) :
    ((i = 0 ∨ ∃ p, (nasdaq_data_transform df nd)[i - 1]? = some p ∧ p.id ≠ r.id) →
        r.price_pct_change = none) ∧
      (∀ p, 0 < i → (nasdaq_data_transform df nd)[i - 1]? = some p → p.id = r.id →
        ((p.price ≠ 0 → r.price_pct_change = some ((r.price - p.price) / p.price * 100)) ∧
          (p.price = 0 → r.price_pct_change = none))) ∧
      (r.metric = match r.price_pct_change, r.weight with
        | some x, some w => some (x * w)
        | _, _ => none) := by
  have key : ∀ (k : Nat) (q : MergedRow),
      (nasdaq_data_transform df nd)[k]? = some q →
      ∃ jq, (sortRows (mergeRows df nd))[k]? = some jq ∧
        q = mkMerged jq (pctOf (((sortRows (mergeRows df nd)).take k).reverse) jq) := by
    intro k q hq
    have hq' : (addPctAux ([] : List JoinedRow) (sortRows (mergeRows df nd)))[k]? = some q := hq
    rw [addPctAux_getElem] at hq'
    cases hk : (sortRows (mergeRows df nd))[k]? with
    | none => rw [hk] at hq'; simp at hq'
    | some jq =>
      rw [hk] at hq'
      simp only [Option.map_some', Option.some.injEq] at hq'
      refine ⟨jq, rfl, ?_⟩
      rw [← hq', List.append_nil]
  have hs : List.Sorted lexLe (sortRows (mergeRows df nd)) :=
    List.sorted_insertionSort lexLe (mergeRows df nd)
  obtain ⟨j, hsi, hrj⟩ := key i r hr
  subst hrj
  refine ⟨?_, ?_, rfl⟩
  · intro h
    rcases h with h0 | ⟨p, hp, hne⟩
    · subst h0
      rfl
    · cases i with
      | zero =>
        have hpr : p = mkMerged j
            (pctOf (((sortRows (mergeRows df nd)).take 0).reverse) j) :=
          Option.some.inj (hp.symm.trans hr)
        exact absurd (by rw [hpr]) hne
      | succ n =>
        obtain ⟨jp, hsn, hpj⟩ := key ((n + 1) - 1) p hp
        have hsn' : (sortRows (mergeRows df nd))[n]? = some jp := hsn
        have hneid : jp.id ≠ j.id := by
          intro e
          exact hne (by rw [hpj]; exact e)
        show pctOf (((sortRows (mergeRows df nd)).take (n + 1)).reverse) j = none
        unfold pctOf
        have hfind : (((sortRows (mergeRows df nd)).take (n + 1)).reverse).find?
            (fun q => q.id == j.id) = none := by
          apply List.find?_eq_none.2
          intro q hq
          have hq' : q ∈ (sortRows (mergeRows df nd)).take (n + 1) := List.mem_reverse.1 hq
          have := sorted_no_earlier_id hs hsn' hsi hneid q hq'
          simpa using this
        rw [hfind]
  · intro p hpos hp hpid
    cases i with
    | zero => omega
    | succ n =>
      obtain ⟨jp, hsn, hpj⟩ := key ((n + 1) - 1) p hp
      subst hpj
      have hsn' : (sortRows (mergeRows df nd))[n]? = some jp := hsn
      have hpid' : jp.id = j.id := hpid
      have hrev : ((sortRows (mergeRows df nd)).take (n + 1)).reverse =
          jp :: ((sortRows (mergeRows df nd)).take n).reverse := take_succ_reverse hsn'
      have hpct : pctOf (((sortRows (mergeRows df nd)).take (n + 1)).reverse) j =
          if jp.price = 0 then none
          else some ((j.price - jp.price) / jp.price * 100) := by
        unfold pctOf
        rw [hrev, List.find?_cons_of_pos _ (by simp [hpid'])]
      constructor
      · intro hpn
        have hjpn : jp.price ≠ 0 := hpn
        show pctOf (((sortRows (mergeRows df nd)).take (n + 1)).reverse) j =
          some ((j.price - jp.price) / jp.price * 100)
        rw [hpct, if_neg hjpn]
      · intro hp0
        have hjp0 : jp.price = 0 := hp0
        show pctOf (((sortRows (mergeRows df nd)).take (n + 1)).reverse) j = none
        rw [hpct, if_pos hjp0]

section
attribute [local semireducible] Rat.add Rat.mul Rat.inv Rat.sub

/-- C2 counterexample: run the pipeline on one asset whose market caps
are all zero (so every weight is the undefined `none`) with prices 0, 5,
10 on three benchmark days.  The third output row has a defined
`price_pct_change` of 100 but an undefined `metric`, refuting the claim
that `metric` is undefined exactly where `price_pct_change` is; the
second row also shows `price_pct_change` itself undefined when the
previous price is zero. -/
theorem nasdaq_metric_undefined_weight_cex :
    (nasdaq_data_transform
        ((data_transform
            [AssetFetch.mk "a" [(0, 0), (86400000, 5), (172800000, 10)]
              [(0, 0), (86400000, 0), (172800000, 0)]]).getD [])
        [BenchRow.mk "1970-01-01" 1 1 1 1 1, BenchRow.mk "1970-01-02" 1 1 1 2 1,
         BenchRow.mk "1970-01-03" 1 1 1 3 1]).map
      (fun r => (r.price_pct_change, r.metric)) =
      [(none, none), (none, none), (some 100, none)] ∧
    ∃ r ∈ nasdaq_data_transform
        ((data_transform
            [AssetFetch.mk "a" [(0, 0), (86400000, 5), (172800000, 10)]
              [(0, 0), (86400000, 0), (172800000, 0)]]).getD [])
        [BenchRow.mk "1970-01-01" 1 1 1 1 1, BenchRow.mk "1970-01-02" 1 1 1 2 1,
         BenchRow.mk "1970-01-03" 1 1 1 3 1],
      r.price_pct_change = some 100 ∧ r.metric = none ∧ r.weight = none := by decide

/-- C2 witness: the amended theorem applied at position 1 of a two-day
single-asset run with defined weights; the second row's
`price_pct_change` is 100 and its `metric` is 100 × weight. -/
theorem nasdaq_pct_change_adjacent_and_metric_witness :
    ((1 = 0 ∨ ∃ p, (nasdaq_data_transform
          [IndexRow.mk "1970-01-01" 4 100 "a" (some 1) (some 4),
           IndexRow.mk "1970-01-02" 8 100 "a" (some 1) (some 8)]
          [BenchRow.mk "1970-01-01" 1 1 1 1 1,
           BenchRow.mk "1970-01-02" 1 1 1 2 1])[1 - 1]? = some p ∧
        p.id ≠ (MergedRow.mk
          (JoinedRow.mk "1970-01-02" 8 100 "a" (some 1) (some 8) 1 1 1 2 1)
          (some 100) (some 100)).id) →
      (MergedRow.mk (JoinedRow.mk "1970-01-02" 8 100 "a" (some 1) (some 8) 1 1 1 2 1)
        (some 100) (some 100)).price_pct_change = none) ∧
      (∀ p, 0 < 1 →
        (nasdaq_data_transform
          [IndexRow.mk "1970-01-01" 4 100 "a" (some 1) (some 4),
           IndexRow.mk "1970-01-02" 8 100 "a" (some 1) (some 8)]
          [BenchRow.mk "1970-01-01" 1 1 1 1 1,
           BenchRow.mk "1970-01-02" 1 1 1 2 1])[1 - 1]? = some p →
        p.id = (MergedRow.mk
          (JoinedRow.mk "1970-01-02" 8 100 "a" (some 1) (some 8) 1 1 1 2 1)
          (some 100) (some 100)).id →
        ((p.price ≠ 0 →
            (MergedRow.mk (JoinedRow.mk "1970-01-02" 8 100 "a" (some 1) (some 8) 1 1 1 2 1)
              (some 100) (some 100)).price_pct_change =
            some (((MergedRow.mk
                (JoinedRow.mk "1970-01-02" 8 100 "a" (some 1) (some 8) 1 1 1 2 1)
                (some 100) (some 100)).price - p.price) / p.price * 100)) ∧
          (p.price = 0 →
            (MergedRow.mk (JoinedRow.mk "1970-01-02" 8 100 "a" (some 1) (some 8) 1 1 1 2 1)
              (some 100) (some 100)).price_pct_change = none))) ∧
      ((MergedRow.mk (JoinedRow.mk "1970-01-02" 8 100 "a" (some 1) (some 8) 1 1 1 2 1)
          (some 100) (some 100)).metric =
        match (MergedRow.mk (JoinedRow.mk "1970-01-02" 8 100 "a" (some 1) (some 8) 1 1 1 2 1)
            (some 100) (some 100)).price_pct_change,
          (MergedRow.mk (JoinedRow.mk "1970-01-02" 8 100 "a" (some 1) (some 8) 1 1 1 2 1)
            (some 100) (some 100)).weight with
        | some x, some w => some (x * w)
        | _, _ => none) :=
  nasdaq_pct_change_adjacent_and_metric
    [IndexRow.mk "1970-01-01" 4 100 "a" (some 1) (some 4),
     IndexRow.mk "1970-01-02" 8 100 "a" (some 1) (some 8)]
    [BenchRow.mk "1970-01-01" 1 1 1 1 1, BenchRow.mk "1970-01-02" 1 1 1 2 1] 1
    (MergedRow.mk (JoinedRow.mk "1970-01-02" 8 100 "a" (some 1) (some 8) 1 1 1 2 1)
      (some 100) (some 100))
    (by decide)

end
